import Mathlib

/-!
Verification development for the formatica form-semantics core.

The TypeScript source (src/lib/utils.ts and src/lib/validator.ts) is shallowly
embedded over a JSON-like value type `JVal`.  JavaScript `undefined` is
modelled as `Option.none` wherever a value can be absent; JS numbers are
modelled as `Int` (none of the verified properties depends on non-integer
numerics or on IEEE-754 behaviour); object property tables are association
lists in insertion order (`JFields`), matching JS own-property enumeration
order, and arrays are `JList`.  Functions that can raise a JS `TypeError` are
embedded in `Except String`.  The schema normalizer re-walks values produced
by its own first pass, so it takes an explicit fuel argument; the fuel passed
by the public wrapper is the (computable) node count, which always suffices.
-/

mutual
inductive JVal : Type where
  | null : JVal
  | bool : Bool → JVal
  | num : Int → JVal
  | str : String → JVal
  | arr : JList → JVal
  | obj : JFields → JVal
inductive JList : Type where
  | nil : JList
  | cons : JVal → JList → JList
inductive JFields : Type where
  | nil : JFields
  | cons : String → JVal → JFields → JFields
end

/-- Build a property table from a Lean list (literal notation helper). -/
def jfields : List (String × JVal) → JFields
  | [] => JFields.nil
  | (k, v) :: rest => JFields.cons k v (jfields rest)

/-- Build a JS array from a Lean list (literal notation helper). -/
def jlist : List JVal → JList
  | [] => JList.nil
  | v :: rest => JList.cons v (jlist rest)

mutual
/-- Node count of a value, used as fuel for the schema normalizer. -/
def jsize : JVal → Nat
  | JVal.null => 1
  | JVal.bool _ => 1
  | JVal.num _ => 1
  | JVal.str _ => 1
  | JVal.arr xs => 1 + jsizeL xs
  | JVal.obj fs => 1 + jsizeF fs
def jsizeL : JList → Nat
  | JList.nil => 1
  | JList.cons x rest => 1 + jsize x + jsizeL rest
def jsizeF : JFields → Nat
  | JFields.nil => 1
  | JFields.cons _ v rest => 1 + jsize v + jsizeF rest
end

/-- First-occurrence property lookup (JS objects hold no duplicate keys). -/
def lookupKey : JFields → String → Option JVal
  | JFields.nil, _ => none
  | JFields.cons k' v rest, k => if k' = k then some v else lookupKey rest k

/-- Property assignment `o[k] = v`: overwrite in place if the key exists
(keeping its position), append otherwise — JS insertion-order semantics. -/
def setKey : JFields → String → JVal → JFields
  | JFields.nil, k, v => JFields.cons k v JFields.nil
  | JFields.cons k' w rest, k, v =>
      if k' = k then JFields.cons k' v rest else JFields.cons k' w (setKey rest k v)

/-- Property deletion `delete o[k]`. -/
def deleteKey : JFields → String → JFields
  | JFields.nil, _ => JFields.nil
  | JFields.cons k' v rest, k =>
      if k' = k then deleteKey rest k else JFields.cons k' v (deleteKey rest k)

/-- JS truthiness of a JSON value (NaN does not arise in the model). -/
def truthy : JVal → Bool
  | JVal.null => false
  | JVal.bool b => b
  | JVal.num n => !(n == 0)
  | JVal.str s => !(s == "")
  | JVal.arr _ => true
  | JVal.obj _ => true

/-- Decimal digit to character. -/
def digitChar : Nat → Char
  | 0 => '0'
  | 1 => '1'
  | 2 => '2'
  | 3 => '3'
  | 4 => '4'
  | 5 => '5'
  | 6 => '6'
  | 7 => '7'
  | 8 => '8'
  | _ => '9'

/-- Digits of `n`, most significant first (fuel-driven; `n + 1` steps always
suffice since the argument shrinks by a factor of ten each step). -/
def natToCharsF : Nat → Nat → List Char
  | 0, _ => []
  | fuel + 1, n => if n = 0 then [] else natToCharsF fuel (n / 10) ++ [digitChar (n % 10)]

/-- Decimal digits of a natural number. -/
def natToChars (n : Nat) : List Char :=
  if n = 0 then ['0'] else natToCharsF (n + 1) n

/-- Decimal rendering of a natural number. -/
def natToString (n : Nat) : String := String.mk (natToChars n)

/-- Decimal rendering of an integer (JS `String(number)` for integral values). -/
def intToString : Int → String
  | Int.ofNat n => natToString n
  | Int.negSucc m => "-" ++ natToString (m + 1)

/-- Numeric value of an ASCII digit character. -/
def digitVal (c : Char) : Option Nat :=
  if 48 ≤ c.toNat && c.toNat ≤ 57 then some (c.toNat - 48) else none

/-- Accumulating decimal parser. -/
def parseDigitsAux : List Char → Nat → Option Nat
  | [], acc => some acc
  | c :: rest, acc =>
      match digitVal c with
      | some d => parseDigitsAux rest (acc * 10 + d)
      | none => none

/-- Parse a non-empty all-digit string. -/
def parseDigits : List Char → Option Nat
  | [] => none
  | l => parseDigitsAux l 0

/-- A string that is a canonical array index (the JS criterion for element
access through a computed property key): digits only, no leading zeros. -/
def parseCanonicalIndex (k : String) : Option Nat :=
  match parseDigits k.data with
  | some n => if natToString n = k then some n else none
  | none => none

/-- Single-character split, mirroring JS `String.prototype.split` with a
one-character separator (`""` splits to `[""]`, separators at the ends and
doubled separators produce empty segments). -/
def jsSplitAux (sep : Char) : List Char → List Char → List (List Char)
  | [], acc => [acc.reverse]
  | c :: cs, acc =>
      if c = sep then acc.reverse :: jsSplitAux sep cs [] else jsSplitAux sep cs (c :: acc)

/-- JS `path.split(sep)` for a one-character separator. -/
def jsSplit (s : String) (sep : Char) : List String :=
  (jsSplitAux sep s.data []).map (fun l => String.mk l)

/-- Join with a separator string. -/
def joinSep (sep : String) : List String → String
  | [] => ""
  | [s] => s
  | s :: rest => s ++ sep ++ joinSep sep rest

mutual
/-- JS `String(v)` on JSON values: arrays render as `Array.prototype.join`
with comma separators and empty renderings for `null` elements; plain objects
render as their JS tag string. -/
def jsToString : JVal → String
  | JVal.null => "null"
  | JVal.bool b => if b then "true" else "false"
  | JVal.num n => intToString n
  | JVal.str s => s
  | JVal.obj _ => "[object Object]"
  | JVal.arr xs => jsToStringElems xs
/-- Comma join of array elements, `null` elements rendering empty. -/
def jsToStringElems : JList → String
  | JList.nil => ""
  | JList.cons x JList.nil => jsToStringItem x
  | JList.cons x rest => jsToStringItem x ++ "," ++ jsToStringElems rest
/-- One array element inside a join. -/
def jsToStringItem : JVal → String
  | JVal.null => ""
  | JVal.bool b => if b then "true" else "false"
  | JVal.num n => intToString n
  | JVal.str s => s
  | JVal.obj _ => "[object Object]"
  | JVal.arr xs => jsToStringElems xs
end

/-- JS template interpolation of a possibly-undefined value. -/
def jsTemplate : Option JVal → String
  | none => "undefined"
  | some v => jsToString v

/-- Suffix test on strings. -/
def strEndsWith (s suf : String) : Bool :=
  s.data.drop (s.data.length - suf.data.length) == suf.data

/-- Element of a JS array by index. -/
def jlistGet : JList → Nat → Option JVal
  | JList.nil, _ => none
  | JList.cons x _, 0 => some x
  | JList.cons _ rest, n + 1 => jlistGet rest n

/-- Length of a JS array. -/
def jlistLength : JList → Nat
  | JList.nil => 0
  | JList.cons _ rest => 1 + jlistLength rest

/-- In-bounds element replacement in a JS array. -/
def jlistSet : JList → Nat → JVal → JList
  | JList.nil, _, _ => JList.nil
  | JList.cons _ rest, 0, v => JList.cons v rest
  | JList.cons x rest, n + 1, v => JList.cons x (jlistSet rest n v)

/-- Append one element at the end of a JS array. -/
def jlistSnoc : JList → JVal → JList
  | JList.nil, v => JList.cons v JList.nil
  | JList.cons x rest, v => JList.cons x (jlistSnoc rest v)

/-- Property read `v[k]` on a non-null value: objects by key, arrays and
strings by canonical index (plus their `length`), everything else has no own
properties.  `null`/`undefined` receivers are handled by the callers, which
model the `TypeError` those raise. -/
def getMember : JVal → String → Option JVal
  | JVal.obj fs, k => lookupKey fs k
  | JVal.arr xs, k =>
      (match parseCanonicalIndex k with
       | some i => jlistGet xs i
       | none => if k = "length" then some (JVal.num (jlistLength xs : Int)) else none)
  | JVal.str s, k =>
      (match parseCanonicalIndex k with
       | some i => (s.data.get? i).map (fun c => JVal.str (String.mk [c]))
       | none => if k = "length" then some (JVal.num (s.data.length : Int)) else none)
  | _, _ => none

/-! ## Path utility (utils.ts: getNestedValue / setNestedValue) -/

/-- One step of `getNestedValue`'s reduce:
`current && current[key] !== undefined ? current[key] : undefined`. -/
def nestStep (current : Option JVal) (key : String) : Option JVal :=
  match current with
  | some c => if truthy c then getMember c key else none
  | none => none

/-- utils.ts `getNestedValue`: dot-path lookup by folding `nestStep` over the
split path, seeded with the data object. -/
def getNestedValue (obj : JVal) (path : String) : Option JVal :=
  (jsSplit path '.').foldl nestStep (some obj)

/-- The final assignment `target[lastKey] = value`.  Objects update the
property table; arrays accept canonical in-bounds (or appending) indices —
sparse/expando array writes are outside the JSON model and reported as
errors; assignment on `null` or a primitive raises `TypeError` (the source
runs as an ES module, hence in strict mode). -/
def assignKey : JVal → String → JVal → Except String JVal
  | JVal.obj fs, k, v => Except.ok (JVal.obj (setKey fs k v))
  | JVal.arr xs, k, v =>
      (match parseCanonicalIndex k with
       | some i =>
           if i < jlistLength xs then Except.ok (JVal.arr (jlistSet xs i v))
           else if i = jlistLength xs then Except.ok (JVal.arr (jlistSnoc xs v))
           else Except.error "sparse array assignment not modelled"
       | none => Except.error "array expando property assignment not modelled")
  | JVal.null, _, _ => Except.error "TypeError: cannot set properties of null"
  | _, _, _ => Except.error "TypeError: cannot create a property on a primitive"

/-- The reduce of `setNestedValue` over the intermediate keys: a falsy or
missing `current[key]` is replaced by a fresh `{}` before descending, then the
final key is assigned.  The walk is embedded as a pure rebuild: descending
returns the updated child, which is written back with `assignKey`. -/
def setNestedAux : JVal → List String → String → JVal → Except String JVal
  | cur, [], lastKey, v => assignKey cur lastKey v
  | cur, k :: rest, lastKey, v =>
      match cur with
      | JVal.null => Except.error "TypeError: cannot read properties of null"
      | c =>
          match
            (match getMember c k with
             | some w => if truthy w then some w else none
             | none => none) with
          | some child => do
              let child' ← setNestedAux child rest lastKey v
              assignKey c k child'
          | none => do
              let child' ← setNestedAux (JVal.obj JFields.nil) rest lastKey v
              assignKey c k child'

/-- utils.ts `setNestedValue`: split the dot-path, pop the last key, walk the
intermediate keys creating `{}` as needed, assign the value at the last key. -/
def setNestedValue (obj : JVal) (path : String) (value : JVal) : Except String JVal :=
  setNestedAux obj (jsSplit path '.').dropLast ((jsSplit path '.').getLastD "") value

/-! ## Condition evaluator (utils.ts: evaluateCondition) -/

/-- A single UI condition.  The operator is kept as a raw string because the
source switches on it with a default branch (the TS union type is erased at
runtime); `value` is `none` when the condition carries no operand. -/
structure UICondition : Type where
  field : String
  operator : String
  value : Option JVal

/-- JS strict equality `===` on JSON values.  Primitives compare by value;
distinct objects/arrays compare by reference, and a schema-literal operand is
never reference-identical to a data value, so those compare `false`. -/
def jsStrictEq : JVal → JVal → Bool
  | JVal.null, JVal.null => true
  | JVal.bool a, JVal.bool b => a == b
  | JVal.num a, JVal.num b => a == b
  | JVal.str a, JVal.str b => a == b
  | _, _ => false

/-- Strict equality where either side may be `undefined`. -/
def optStrictEq : Option JVal → Option JVal → Bool
  | none, none => true
  | some a, some b => jsStrictEq a b
  | _, _ => false

/-- Membership test of `Array.prototype.includes` (SameValueZero, which on
JSON values coincides with strict equality). -/
def jlistIncludes : JList → JVal → Bool
  | JList.nil, _ => false
  | JList.cons x rest, v => jsStrictEq x v || jlistIncludes rest v

/-- JS `ToNumber` on a JSON value, `none` standing for NaN.  Strings parse as
optionally-signed integers after trimming (fractional, hex and exponent
literals are outside the `Int` model and map to NaN); singleton arrays of a
number or null coerce through their rendered element; other arrays and
objects map to NaN. -/
def toNumber : JVal → Option Int
  | JVal.num n => some n
  | JVal.bool b => some (if b then 1 else 0)
  | JVal.null => some (0 : Int)
  | JVal.str s =>
      (let ws := fun (c : Char) => c == ' ' || c == '\t' || c == '\n' || c == '\r'
       let t := ((s.data.dropWhile ws).reverse.dropWhile ws).reverse
       if t.isEmpty then some (0 : Int)
       else
         match t with
         | '-' :: ds => (parseDigits ds).map (fun n => -(n : Int))
         | '+' :: ds => (parseDigits ds).map (fun n => (n : Int))
         | ds => (parseDigits ds).map (fun n => (n : Int)))
  | JVal.arr JList.nil => some (0 : Int)
  | JVal.arr (JList.cons (JVal.num n) JList.nil) => some n
  | JVal.arr (JList.cons JVal.null JList.nil) => some (0 : Int)
  | JVal.arr _ => none
  | JVal.obj _ => none

/-- utils.ts `evaluateCondition`: resolve the condition's field by dot-path
and dispatch on the operator string; the default branch of the switch logs a
warning and yields `true`. -/
def evaluateCondition (condition : UICondition) (formData : JVal) : Bool :=
  let fieldValue := getNestedValue formData condition.field
  match condition.operator with
  | "equals" => optStrictEq fieldValue condition.value
  | "not_equals" => !(optStrictEq fieldValue condition.value)
  | "in" =>
      (match condition.value with
       | some (JVal.arr xs) =>
           (match fieldValue with
            | some fv => jlistIncludes xs fv
            | none => false)
       | _ => false)
  | "not_in" =>
      (match condition.value with
       | some (JVal.arr xs) =>
           (match fieldValue with
            | some fv => !(jlistIncludes xs fv)
            | none => true)
       | _ => false)
  | "greater_than" =>
      (match fieldValue with
       | some (JVal.num n) =>
           (match condition.value.bind toNumber with
            | some m => decide (m < n)
            | none => false)
       | _ => false)
  | "less_than" =>
      (match fieldValue with
       | some (JVal.num n) =>
           (match condition.value.bind toNumber with
            | some m => decide (n < m)
            | none => false)
       | _ => false)
  | "exists" =>
      (match fieldValue with
       | none => false
       | some JVal.null => false
       | some (JVal.str s) => !(s == "")
       | some _ => true)
  | "not_exists" =>
      (match fieldValue with
       | none => true
       | some JVal.null => true
       | some (JVal.str s) => s == ""
       | some _ => false)
  | _ => true

/-! ## Rule aggregator (utils.ts: evaluateUIConditions, shouldDisableField) -/

/-- A visibility/disablement rule: `conditions` is `none` when the property is
absent (or otherwise falsy) at runtime, and `logic` is `none` when absent, in
which case the destructuring default applies. -/
structure UIConditions : Type where
  conditions : Option (List UICondition)
  logic : Option String

/-- utils.ts `evaluateUIConditions`: absent rule or absent `conditions`
property returns the provided default; otherwise dispatch on the logic mode
(`[]` is a truthy JS array, so an empty conditions list reaches the
`every`/`some` calls). -/
def evaluateUIConditions (uiConditions : Option UIConditions) (formData : JVal)
    (defaultValue : Bool) : Bool :=
  match uiConditions with
  | none => defaultValue
  | some uc =>
      match uc.conditions with
      | none => defaultValue
      | some conditions =>
          if uc.logic.getD "and" == "and" then
            conditions.all (fun c => evaluateCondition c formData)
          else if uc.logic.getD "and" == "or" then
            conditions.any (fun c => evaluateCondition c formData)
          else defaultValue

/-- Dynamic-enum lookup table entry: option values plus optional labels. -/
structure EnumMappingEntry : Type where
  enum : List JVal
  enumNames : Option (List String)

/-- A field's dynamic-enum source: the source field's dot-path and the
mapping, keyed by JS property keys (strings). -/
structure EnumSource : Type where
  field : String
  mapping : List (String × EnumMappingEntry)

/-- The slice of `FormFieldSchema` the embedded operations read.  TS names
with the `ui:` namespace become `uiShow`, `uiDisabled`, `uiEnumSource`. -/
structure FormFieldSchema : Type where
  type : String
  required : Option Bool
  enum : Option (List JVal)
  enumNames : Option (List String)
  uiShow : Option UIConditions
  uiDisabled : Option UIConditions
  uiEnumSource : Option EnumSource

/-- utils.ts `shouldDisableField`: section-level disablement cascades over the
field's own rule, which defaults to not-disabled. -/
def shouldDisableField (field : FormFieldSchema) (formData : JVal)
    (sectionDisabled : Bool) : Bool :=
  sectionDisabled || evaluateUIConditions field.uiDisabled formData false

/-- Mapping lookup in a dynamic-enum source table. -/
def lookupMapping : List (String × EnumMappingEntry) → String → Option EnumMappingEntry
  | [], _ => none
  | (k', e) :: rest, k => if k' = k then some e else lookupMapping rest k

/-! ## Enum resolver (utils.ts: getDynamicEnumOptions) -/

/-- utils.ts `getDynamicEnumOptions`: `null` without a dynamic source;
otherwise resolve the source field's value by dot-path and return the mapping
entry for it — but only when the value is truthy (`sourceValue && ...`) and
the entry exists under the value's string form (JS property keys are strings;
the mapping's entries are objects and hence truthy). -/
def getDynamicEnumOptions (field : FormFieldSchema) (formData : JVal) :
    Option EnumMappingEntry :=
  match field.uiEnumSource with
  | none => none
  | some src =>
      match getNestedValue formData src.field with
      | none => none
      | some v =>
          if truthy v then
            match lookupMapping src.mapping (jsToString v) with
            | some entry => some entry
            | none => none
          else none

/-! ## Schema normalizer (utils.ts: stripUIExtensions) -/

/-- Key test `key.startsWith('ui:')`. -/
def isUIKey (k : String) : Bool :=
  match k.data with
  | 'u' :: 'i' :: ':' :: _ => true
  | _ => false

/-- The deletions of `removeUIProps`' first pass: drop every property whose
key carries the `ui:` namespace (order of the survivors is preserved). -/
def dropUIKeys : JFields → JFields
  | JFields.nil => JFields.nil
  | JFields.cons k v rest =>
      if isUIKey k then dropUIKeys rest else JFields.cons k v (dropUIKeys rest)

/-- First-pass recursion of `removeUIProps` over the surviving properties:
`typeof obj[key] === 'object'` descends into objects and arrays (recursing
into `null` is a no-op in the source, so it is skipped here). -/
def mapEntriesE (f : JVal → Except String JVal) : JFields → Except String JFields
  | JFields.nil => Except.ok JFields.nil
  | JFields.cons k v rest => do
      let v' ←
        (match v with
         | JVal.obj _ => f v
         | JVal.arr _ => f v
         | _ => Except.ok v)
      let rest' ← mapEntriesE f rest
      Except.ok (JFields.cons k v' rest')

/-- First-pass recursion over array elements (array indices never carry the
`ui:` namespace, so only the element recursion applies). -/
def mapElemsE (f : JVal → Except String JVal) : JList → Except String JList
  | JList.nil => Except.ok JList.nil
  | JList.cons x rest => do
      let x' ←
        (match x with
         | JVal.obj _ => f x
         | JVal.arr _ => f x
         | _ => Except.ok x)
      let rest' ← mapElemsE f rest
      Except.ok (JList.cons x' rest')

/-- Plain list of a property table (for `Object.entries`). -/
def fieldsToList : JFields → List (String × JVal)
  | JFields.nil => []
  | JFields.cons k v rest => (k, v) :: fieldsToList rest

/-- Index-keyed entries of an array (for `Object.entries` on arrays). -/
def enumElems (i : Nat) : JList → List (String × JVal)
  | JList.nil => []
  | JList.cons x rest => (natToString i, x) :: enumElems (i + 1) rest

/-- Index-keyed entries of a string (for `Object.entries` on strings). -/
def enumChars (i : Nat) : List Char → List (String × JVal)
  | [] => []
  | c :: rest => (natToString i, JVal.str (String.mk [c])) :: enumChars (i + 1) rest

/-- JS `Object.entries(v)` where `v` may be `undefined` (`none`): raises
`TypeError` on `null`/`undefined`, lists properties of objects, index-keyed
elements of arrays and characters of strings, and is empty on other
primitives. -/
def entriesOf : Option JVal → Except String (List (String × JVal))
  | none => Except.error "TypeError: Object.entries called on null or undefined"
  | some JVal.null => Except.error "TypeError: Object.entries called on null or undefined"
  | some (JVal.obj fs) => Except.ok (fieldsToList fs)
  | some (JVal.arr xs) => Except.ok (enumElems 0 xs)
  | some (JVal.str s) => Except.ok (enumChars 0 s.data)
  | some _ => Except.ok []

/-- The body of the per-section loop of `stripUIExtensions`: for each
`[key, field]` of `section.properties`, compute the composite key
`sectionId.key`, strip the field once more, and record the composite key as
required when the field's `required` property is truthy (reading `required`
off a `null` field raises; the strip of `null` itself is a no-op and
precedes that read, as in the source). -/
def flattenPropsE (strip : JVal → Except String JVal) (sid : String) :
    List (String × JVal) → Except String (List (String × JVal) × List JVal)
  | [] => Except.ok ([], [])
  | (key, field) :: rest => do
      let stripped ← strip field
      let req ←
        (match field with
         | JVal.null => Except.error "TypeError: cannot read properties of null"
         | f => Except.ok
             (match getMember f "required" with
              | some rv => truthy rv
              | none => false))
      let pr ← flattenPropsE strip sid rest
      Except.ok ((sid ++ "." ++ key, stripped) :: pr.fst,
        (if req then [JVal.str (sid ++ "." ++ key)] else []) ++ pr.snd)

/-- The sections loop of `stripUIExtensions`: `Object.entries(section.properties)`
raises when the section is `null` or has no usable `properties`; the section
id interpolates through the template string (so a missing id renders as
`undefined`). -/
def flattenSecsE (strip : JVal → Except String JVal) :
    JList → Except String (List (String × JVal) × List JVal)
  | JList.nil => Except.ok ([], [])
  | JList.cons sec rest => do
      let props ←
        (match sec with
         | JVal.null => Except.error "TypeError: cannot read properties of null"
         | s => entriesOf (getMember s "properties"))
      let pr1 ← flattenPropsE strip (jsTemplate
        (match sec with
         | JVal.null => none
         | s => getMember s "id")) props
      let pr2 ← flattenSecsE strip rest
      Except.ok (pr1.fst ++ pr2.fst, pr1.snd ++ pr2.snd)

/-- Sequential property assignments `obj.properties[fullKey] = ...` over the
flattened entries (later duplicates overwrite in place, as JS assignment
does). -/
def insertAllProps : JFields → List (String × JVal) → JFields
  | acc, [] => acc
  | acc, (k, v) :: rest => insertAllProps (setKey acc k v) rest

/-- Build a JS array from the collected required keys. -/
def jlistOfList : List JVal → JList
  | [] => JList.nil
  | v :: rest => JList.cons v (jlistOfList rest)

/-- utils.ts `removeUIProps` (after the deep copy, which is the identity on
JSON values): first drop `ui:` keys and recurse into object-typed children,
then, when the result holds a `sections` array, overwrite `properties` and
`required` with the flattened section fields (each field stripped once more,
exactly as the source calls `stripUIExtensions(field)`) and delete
`sections`.  The fuel bounds the nesting of these re-strips; the wrapper
passes the node count, which always suffices because every nested call
receives a value with strictly fewer nodes. -/
def removeUIPropsF : Nat → JVal → Except String JVal
  | 0, _ => Except.error "out of fuel"
  | fuel + 1, JVal.obj fs => do
      let fs1 ← mapEntriesE (removeUIPropsF fuel) (dropUIKeys fs)
      match lookupKey fs1 "sections" with
      | some (JVal.arr secs) => do
          let pr ← flattenSecsE (removeUIPropsF fuel) secs
          let fs2 := setKey fs1 "properties" (JVal.obj (insertAllProps JFields.nil pr.fst))
          let fs3 := setKey fs2 "required" (JVal.arr (jlistOfList pr.snd))
          Except.ok (JVal.obj (deleteKey fs3 "sections"))
      | _ => Except.ok (JVal.obj fs1)
  | fuel + 1, JVal.arr xs => do
      let xs1 ← mapElemsE (removeUIPropsF fuel) xs
      Except.ok (JVal.arr xs1)
  | _ + 1, v => Except.ok v

/-- utils.ts `stripUIExtensions`: deep-copy (identity on the JSON model) and
run `removeUIProps`. -/
def stripUIExtensions (schema : JVal) : Except String JVal :=
  removeUIPropsF (jsize schema) schema

mutual
/-- No key carries the `ui:` namespace and no key is named `sections`, at any
nesting depth (the hypothesis of the normalizer round-trip property). -/
def uiSectionFree : JVal → Bool
  | JVal.obj fs => uiSectionFreeF fs
  | JVal.arr xs => uiSectionFreeL xs
  | _ => true
/-- `uiSectionFree` over array elements. -/
def uiSectionFreeL : JList → Bool
  | JList.nil => true
  | JList.cons x rest => uiSectionFree x && uiSectionFreeL rest
/-- `uiSectionFree` over object properties. -/
def uiSectionFreeF : JFields → Bool
  | JFields.nil => true
  | JFields.cons k v rest =>
      !(isUIKey k) && !(k == "sections") && uiSectionFree v && uiSectionFreeF rest
end

/-! ## Structural validation engine (external collaborator, modelled) -/

/-- One failure report of the external structural validator, as the error
contract of the spec describes it: instance path, keyword, raw message, and
the parameters the error-mapping layer reads. -/
structure AjvError : Type where
  instancePath : String
  keyword : String
  message : Option String
  missingProperty : Option String
  limit : Option Int
  paramType : Option String
  allowedValues : Option JList
  formatName : Option String

/-- A required-property failure at `ipath` for missing key `rk`. -/
def requiredErr (ipath rk : String) : AjvError :=
  ⟨ipath, "required", some ("must have required property " ++ rk), some rk,
    none, none, none, none⟩

/-- A type failure at `ipath` for expected type `t`. -/
def typeErr (ipath t : String) : AjvError :=
  ⟨ipath, "type", some ("must be " ++ t), none, none, some t, none, none⟩

/-- Modelled from the spec: the type vocabulary of the JSON-Schema-style
engine (string/number/integer/boolean plus object, array and null); unknown
type names accept everything, as the source configures the engine leniently
(`strict: false`).  Integer values stand in for both numeric types in the
`Int` model. -/
def typeOk : String → JVal → Bool
  | "object", JVal.obj _ => true
  | "object", _ => false
  | "array", JVal.arr _ => true
  | "array", _ => false
  | "string", JVal.str _ => true
  | "string", _ => false
  | "number", JVal.num _ => true
  | "number", _ => false
  | "integer", JVal.num _ => true
  | "integer", _ => false
  | "boolean", JVal.bool _ => true
  | "boolean", _ => false
  | "null", JVal.null => true
  | "null", _ => false
  | _, _ => true

/-- Modelled from the spec: the `type` keyword check of the external engine. -/
def typeErrsOf (fs : JFields) (ipath : String) (data : JVal) : List AjvError :=
  match lookupKey fs "type" with
  | some (JVal.str t) => if typeOk t data then [] else [typeErr ipath t]
  | _ => []

/-- Modelled from the spec: the `required` keyword check — one failure per
listed property name missing from the object under validation, carrying the
missing name in the error's parameters (non-string entries and non-object
data are ignored, matching the engine's lenient configuration). -/
def requiredErrsAux : JList → String → JFields → List AjvError
  | JList.nil, _, _ => []
  | JList.cons r rest, ipath, dfs =>
      (match r with
       | JVal.str rk =>
           (match lookupKey dfs rk with
            | some _ => []
            | none => [requiredErr ipath rk])
       | _ => []) ++ requiredErrsAux rest ipath dfs

/-- Modelled from the spec: the `required` keyword check of one schema node. -/
def requiredErrsOf (fs : JFields) (ipath : String) (data : JVal) : List AjvError :=
  match lookupKey fs "required", data with
  | some (JVal.arr rs), JVal.obj dfs => requiredErrsAux rs ipath dfs
  | _, _ => []

mutual
/-- Modelled from the spec: the validation run of the external
JSON-Schema-style engine (`validator.validate(data)` with its ordered error
list).  Only the keyword subset the verified claims exercise is modelled:
`type`, `required`, and recursion through `properties` (which extends the
instance path, slash-separated, exactly as the engine reports it).  All other
keywords of the engine's vocabulary (`pattern`, `minimum`, `maximum`, `enum`,
`format`, ...) are outside this model — the error-mapping layer is therefore
verified against arbitrary error records rather than only generated ones. -/
def modelValidateV : JVal → String → JVal → List AjvError
  | JVal.obj fs, ipath, data =>
      typeErrsOf fs ipath data ++ requiredErrsOf fs ipath data ++
        modelValidateFields fs ipath data
  | _, _, _ => []
/-- Walk the schema node's properties looking for the `properties` keyword. -/
def modelValidateFields : JFields → String → JVal → List AjvError
  | JFields.nil, _, _ => []
  | JFields.cons k v rest, ipath, data =>
      (if k == "properties" then
         match v, data with
         | JVal.obj ps, JVal.obj dfs => modelValidateProps ps ipath dfs
         | _, _ => []
       else []) ++ modelValidateFields rest ipath data
/-- Validate each declared property present in the data. -/
def modelValidateProps : JFields → String → JFields → List AjvError
  | JFields.nil, _, _ => []
  | JFields.cons k sub rest, ipath, dfs =>
      (match lookupKey dfs k with
       | some dv => modelValidateV sub (ipath ++ "/" ++ k) dv
       | none => []) ++ modelValidateProps rest ipath dfs
end

/-- Modelled from the spec: whole-schema validation entry point. -/
def modelValidate (schema data : JVal) : List AjvError :=
  modelValidateV schema "" data

mutual
/-- Modelled from the spec: the compile step of the external engine
(`compile(schema) -> validator`), which rejects malformed schemas.  Only the
malformation the verified claims exercise is modelled: a schema must be an
object or a boolean, and every `type` keyword in it must hold a string
(sub-schemas are reached through `properties`). -/
def ajvCompileV : JVal → Except String Unit
  | JVal.obj fs => ajvCompileFields fs
  | JVal.bool _ => Except.ok ()
  | _ => Except.error "schema is invalid: schema must be an object or a boolean"
/-- Compile-check the properties of one schema node. -/
def ajvCompileFields : JFields → Except String Unit
  | JFields.nil => Except.ok ()
  | JFields.cons k v rest => do
      (if k == "type" then
         (match v with
          | JVal.str _ => Except.ok ()
          | _ => Except.error "schema is invalid: the type keyword must hold a string")
       else Except.ok ())
      (if k == "properties" then
         (match v with
          | JVal.obj ps => ajvCompileProps ps
          | _ => Except.ok ())
       else Except.ok ())
      ajvCompileFields rest
/-- Compile-check each declared property sub-schema. -/
def ajvCompileProps : JFields → Except String Unit
  | JFields.nil => Except.ok ()
  | JFields.cons _ sub rest => do
      ajvCompileV sub
      ajvCompileProps rest
end

/-- Modelled from the spec: schema compilation entry point. -/
def ajvCompile (schema : JVal) : Except String Unit :=
  ajvCompileV schema

/-! ## Form validator (validator.ts: validateFormData) -/

/-- Drop at most one leading slash (`replace(/^\//, '')`). -/
def dropLeadingSlash : List Char → List Char
  | '/' :: rest => rest
  | l => l

/-- validator.ts path conversion: strip the leading slash of the engine's
instance path and turn every remaining slash into a dot. -/
def convertPath (instancePath : String) : String :=
  String.mk ((dropLeadingSlash instancePath.data).map (fun c => if c = '/' then '.' else c))

/-- Lookup in the accumulated errors mapping. -/
def lookupErrs : List (String × List String) → String → Option (List String)
  | [], _ => none
  | (k', ms) :: rest, k => if k' = k then some ms else lookupErrs rest k

/-- `if (!errors[fieldPath]) errors[fieldPath] = []` — create the key with an
empty message list when absent (insertion order preserved). -/
def ensureKey (errs : List (String × List String)) (k : String) :
    List (String × List String) :=
  match lookupErrs errs k with
  | some _ => errs
  | none => errs ++ [(k, [])]

/-- `errors[fieldPath].push(message)` (the caller has ensured the key). -/
def pushMsg : List (String × List String) → String → String → List (String × List String)
  | [], k, m => [(k, [m])]
  | (k', ms) :: rest, k, m =>
      if k' = k then (k', ms ++ [m]) :: rest else (k', ms) :: pushMsg rest k m

/-- `s.id === segment` for the custom-message walk. -/
def idMatches (x : JVal) (seg : String) : Bool :=
  match getMember x "id" with
  | some (JVal.str s) => s == seg
  | _ => false

/-- `sections.find(s => s.id === segment)`: the callback dereferences each
element's `id`, so a `null` element raises. -/
def findSection : JList → String → Except String (Option JVal)
  | JList.nil, _ => Except.ok none
  | JList.cons x rest, seg =>
      match x with
      | JVal.null => Except.error "TypeError: cannot read properties of null"
      | y => if idMatches y seg then Except.ok (some y) else findSection rest seg

/-- The `else if (fieldSchema.sections)` arm of the custom-message walk:
a truthy non-array `sections` has no `find` method and raises; a found
section replaces the cursor (`if (section)` — found sections are objects and
hence truthy); otherwise the cursor is unchanged. -/
def msgWalkSections (c : JVal) (seg : String) : Except String (Option JVal) :=
  match getMember c "sections" with
  | some (JVal.arr xs) =>
      (match findSection xs seg with
       | Except.error er => Except.error er
       | Except.ok (some s) => Except.ok (if truthy s then some s else some c)
       | Except.ok none => Except.ok (some c))
  | some w =>
      if truthy w then Except.error "TypeError: sections.find is not a function"
      else Except.ok (some c)
  | none => Except.ok (some c)

/-- The per-segment loop of validator.ts' custom-validation-message search
(the `pattern` arm of `validateFormData`): reading `.properties` off an
`undefined` or `null` cursor raises; a truthy `properties` advances the
cursor to `properties[segment]` (possibly `undefined`); otherwise the section
arm applies. -/
def msgWalkAux : Option JVal → List String → Except String (Option JVal)
  | cur, [] => Except.ok cur
  | none, _ :: _ => Except.error "TypeError: cannot read properties of undefined"
  | some JVal.null, _ :: _ => Except.error "TypeError: cannot read properties of null"
  | some c, seg :: rest =>
      match getMember c "properties" with
      | some props =>
          if truthy props then msgWalkAux (getMember props seg) rest
          else do
            let nxt ← msgWalkSections c seg
            msgWalkAux nxt rest
      | none => do
          let nxt ← msgWalkSections c seg
          msgWalkAux nxt rest

/-- validator.ts custom-message lookup: split the instance path (after
dropping its leading slash) on slashes and walk the original, UI-extended
schema. -/
def lookupCustomMessage (schema : JVal) (instancePath : String) :
    Except String (Option JVal) :=
  msgWalkAux (some schema) (jsSplit (String.mk (dropLeadingSlash instancePath.data)) '/')

/-- Render the engine's allowed values for the `enum` message. -/
def jlistToStrings : JList → List String
  | JList.nil => []
  | JList.cons x rest => jsToString x :: jlistToStrings rest

/-- Insert thousands separators into a most-significant-first digit list
(operating on the reversed list). -/
def group3 : List Char → List Char
  | a :: b :: c :: d :: rest => a :: b :: c :: ',' :: group3 (d :: rest)
  | l => l

/-- JS `Number.prototype.toLocaleString()` under the default grouped-digit
locale, for the integral values of the model. -/
def toLocaleString : Int → String
  | Int.ofNat m => String.mk ((group3 (natToChars m).reverse).reverse)
  | Int.negSucc m => "-" ++ String.mk ((group3 (natToChars (m + 1)).reverse).reverse)

/-- One iteration of validator.ts' error-formatting loop: convert the path,
ensure the bucket, humanize the message by keyword.  `required` failures are
re-keyed onto the missing child's composite path and skip the parent bucket
(which stays behind, empty, having been ensured first); `pattern` failures
run the custom-message walk over the original schema and fall back to the
generic text. -/
def formatOneError (schema : JVal) (acc : List (String × List String)) (e : AjvError) :
    Except String (List (String × List String)) :=
  let path := convertPath e.instancePath
  let fieldPath := if path = "" then "root" else path
  let acc1 := ensureKey acc fieldPath
  let message := e.message.getD "Invalid value"
  match e.keyword with
  | "required" =>
      (match e.missingProperty with
       | some mp =>
           (let requiredPath := if path = "" then mp else path ++ "." ++ mp
            Except.ok (pushMsg (ensureKey acc1 requiredPath) requiredPath
              (mp ++ " is required")))
       | none => Except.ok (pushMsg acc1 fieldPath message))
  | "pattern" => do
      let fin ← lookupCustomMessage schema e.instancePath
      Except.ok (pushMsg acc1 fieldPath
        (match fin with
         | some fsv =>
             if truthy fsv then
               (match getMember fsv "ui:validationMessage" with
                | some cm => if truthy cm then jsToString cm else "Invalid format"
                | none => "Invalid format")
             else "Invalid format"
         | none => "Invalid format"))
  | "minimum" =>
      Except.ok (pushMsg acc1 fieldPath
        (match e.limit with
         | some l => "Value must be at least " ++ toLocaleString l
         | none => message))
  | "maximum" =>
      Except.ok (pushMsg acc1 fieldPath
        (match e.limit with
         | some l => "Value must be at most " ++ toLocaleString l
         | none => message))
  | "enum" =>
      Except.ok (pushMsg acc1 fieldPath
        (match e.allowedValues with
         | some vs => "Value must be one of: " ++ joinSep ", " (jlistToStrings vs)
         | none => message))
  | "format" =>
      (match e.formatName with
       | some f => Except.ok (pushMsg acc1 fieldPath ("Invalid " ++ f ++ " format"))
       | none => Except.ok (pushMsg acc1 fieldPath message))
  | "type" =>
      (match e.paramType with
       | some t => Except.ok (pushMsg acc1 fieldPath ("Value must be a " ++ t))
       | none => Except.ok (pushMsg acc1 fieldPath message))
  | _ => Except.ok (pushMsg acc1 fieldPath message)

/-- validator.ts error-formatting loop over the engine's report order. -/
def formatErrorsAux (schema : JVal) :
    List AjvError → List (String × List String) → Except String (List (String × List String))
  | [], acc => Except.ok acc
  | e :: rest, acc => do
      let acc' ← formatOneError schema acc e
      formatErrorsAux schema rest acc'

/-- The error-mapping stage of `validateFormData`: fold the engine's errors
into the path-keyed messages mapping, walking the original schema for custom
`pattern` messages. -/
def formatErrors (schema : JVal) (errs : List AjvError) :
    Except String (List (String × List String)) :=
  formatErrorsAux schema errs []

/-- validator.ts `validateFormData`: normalize the schema, compile and run
the (spec-modelled) structural engine, and humanize its failures into the
path-keyed errors mapping. -/
def validateFormData (schema : JVal) (formData : JVal) :
    Except String (Bool × List (String × List String)) := do
  let cleanSchema ← stripUIExtensions schema
  let _ ← ajvCompile cleanSchema
  let errs := modelValidate cleanSchema formData
  let errors ← formatErrors schema errs
  Except.ok (errs.isEmpty, errors)

/-! ## Field validator (validator.ts: validateField) -/

/-- Index-keyed property table of an array (object spread of an array). -/
def enumElemsF (i : Nat) : JList → JFields
  | JList.nil => JFields.nil
  | JList.cons x rest => JFields.cons (natToString i) x (enumElemsF (i + 1) rest)

/-- Index-keyed property table of a string (object spread of a string). -/
def enumCharsF (i : Nat) : List Char → JFields
  | [] => JFields.nil
  | c :: rest => JFields.cons (natToString i) (JVal.str (String.mk [c])) (enumCharsF (i + 1) rest)

/-- The object spread `{...v}`: own enumerable properties of objects, arrays
and strings; the empty object for other primitives. -/
def spreadToObj : JVal → JFields
  | JVal.obj fs => fs
  | JVal.arr xs => enumElemsF 0 xs
  | JVal.str s => enumCharsF 0 s.data
  | _ => JFields.nil

/-- `fieldSchema.required === true` (strict equality with the boolean). -/
def requiredIsTrue (v : JVal) : Bool :=
  match getMember v "required" with
  | some (JVal.bool true) => true
  | _ => false

/-- The ad-hoc wrapper schema `validateField` builds: one `field` property
holding the stripped field schema without its leaf-level `required`, and the
wrapper-level `required` list synthesized from the original field schema. -/
def fieldWrapperSchema (fsv stripped : JVal) : JVal :=
  JVal.obj (jfields
    [("type", JVal.str "object"),
     ("properties", JVal.obj (jfields
       [("field", JVal.obj (deleteKey (spreadToObj stripped) "required"))])),
     ("required",
       if requiredIsTrue fsv then JVal.arr (jlist [JVal.str "field"])
       else JVal.arr JList.nil)])

/-- The field schema's custom validation message, when present and truthy. -/
def hasTruthyCustom (fsv : JVal) : Bool :=
  match getMember fsv "ui:validationMessage" with
  | some cm => truthy cm
  | none => false

/-- String form of the custom validation message (only read when truthy;
non-string custom messages coerce to their rendered form in this model). -/
def customMsgString (fsv : JVal) : String :=
  match getMember fsv "ui:validationMessage" with
  | some cm => jsToString cm
  | none => "undefined"

/-- `fieldSchema['ui:format'] !== 'none'` decides grouped-digit rendering. -/
def uiFormatIsNone (fsv : JVal) : Bool :=
  match getMember fsv "ui:format" with
  | some (JVal.str s) => s == "none"
  | _ => false

/-- validator.ts per-field message humanization: a truthy custom message wins
for `pattern` failures; otherwise the keyword table applies, with the
numeric-limit rendering honouring the field's formatting opt-out. -/
def humanizeFieldError (fsv : JVal) (e : AjvError) : String :=
  let message := e.message.getD "Invalid value"
  if hasTruthyCustom fsv && (e.keyword == "pattern") then customMsgString fsv
  else
    match e.keyword with
    | "required" => "This field is required"
    | "pattern" => if hasTruthyCustom fsv then customMsgString fsv else "Invalid format"
    | "minimum" =>
        (match e.limit with
         | some l => "Value must be at least "
             ++ (if uiFormatIsNone fsv then intToString l else toLocaleString l)
         | none => message)
    | "maximum" =>
        (match e.limit with
         | some l => "Value must be at most "
             ++ (if uiFormatIsNone fsv then intToString l else toLocaleString l)
         | none => message)
    | "enum" => "Please select a valid option"
    | "format" =>
        (match e.formatName with
         | some f => "Invalid " ++ f ++ " format"
         | none => message)
    | "type" =>
        (match e.paramType with
         | some t => "Value must be a " ++ t
         | none => message)
    | _ => message

/-- validator.ts `validateField`: a falsy field schema validates to no
errors; the schema is normalized and wrapped (outside the try block, so a
raising normalization propagates); compile errors of the engine are caught
into an empty result; otherwise the wrapper validates `{field: value}` and
the failures are humanized.  The field path parameter is unused, as in the
source. -/
def validateField (fieldSchema : Option JVal) (value : JVal) (_fieldPath : String) :
    Except String (List String) :=
  match fieldSchema with
  | none => Except.ok []
  | some fsv =>
      if truthy fsv then
        match stripUIExtensions fsv with
        | Except.error er => Except.error er
        | Except.ok stripped =>
            match ajvCompile (fieldWrapperSchema fsv stripped) with
            | Except.error _ => Except.ok []
            | Except.ok _ =>
                Except.ok ((modelValidate (fieldWrapperSchema fsv stripped)
                  (JVal.obj (jfields [("field", value)]))).map (humanizeFieldError fsv))
      else Except.ok []

/-! ## Remaining definitions used by the theorems -/

/-- The hypothesis of the path round-trip property: along the intermediate
keys, each key is either absent at its level or bound to a plain object (the
claim's side condition); levels other than plain objects fail the spine. -/
def objSpine : JVal → List String → Bool
  | _, [] => true
  | JVal.obj fs, k :: rest =>
      (match lookupKey fs k with
       | none => true
       | some (JVal.obj fs') => objSpine (JVal.obj fs') rest
       | some _ => false)
  | _, _ :: _ => false

/-- One-section schema with id `s` holding one required field `f` (the
required-remapping scenario). -/
def formC2Schema : JVal :=
  JVal.obj (jfields
    [("type", JVal.str "object"),
     ("title", JVal.str "T"),
     ("sections", JVal.arr (jlist
       [JVal.obj (jfields
         [("id", JVal.str "s"),
          ("title", JVal.str "S"),
          ("properties", JVal.obj (jfields
            [("f", JVal.obj (jfields
              [("type", JVal.str "string"), ("required", JVal.bool true)]))]))])]))])

/-- The form data of the required-remapping scenario: the section entry is
present but empty. -/
def formC2Data : JVal :=
  JVal.obj (jfields [("s", JVal.obj JFields.nil)])

/-! ## Supporting lemmas -/

theorem except_bind_ok {α β : Type} (a : α) (f : α → Except String β) :
    (Except.ok a : Except String α) >>= f = f a := rfl

theorem jsize_pos (v : JVal) : 0 < jsize v := by
  cases v <;> simp [jsize]

theorem uiSectionFreeF_cons (k : String) (v : JVal) (rest : JFields)
    (h : uiSectionFreeF (JFields.cons k v rest) = true) :
    isUIKey k = false ∧ k ≠ "sections"
      ∧ uiSectionFree v = true ∧ uiSectionFreeF rest = true := by
  simp [uiSectionFreeF] at h
  exact ⟨h.1.1.1, h.1.1.2, h.1.2, h.2⟩

theorem uiSectionFreeL_cons (x : JVal) (rest : JList)
    (h : uiSectionFreeL (JList.cons x rest) = true) :
    uiSectionFree x = true ∧ uiSectionFreeL rest = true := by
  simpa [uiSectionFreeL] using h

theorem lookupKey_sections_none : ∀ fs : JFields, uiSectionFreeF fs = true →
    lookupKey fs "sections" = none
  | JFields.nil, _ => rfl
  | JFields.cons k v rest, h => by
      obtain ⟨_, hk, _, hrest⟩ := uiSectionFreeF_cons k v rest h
      simp [lookupKey, hk, lookupKey_sections_none rest hrest]

theorem dropUIKeys_id : ∀ fs : JFields, uiSectionFreeF fs = true → dropUIKeys fs = fs
  | JFields.nil, _ => rfl
  | JFields.cons k v rest, h => by
      obtain ⟨hui, _, _, hrest⟩ := uiSectionFreeF_cons k v rest h
      simp [dropUIKeys, hui, dropUIKeys_id rest hrest]

theorem mapEntriesE_clean (fuel : Nat)
    (ih : ∀ w : JVal, jsize w ≤ fuel → uiSectionFree w = true →
      removeUIPropsF fuel w = Except.ok w) :
    ∀ fs : JFields, jsizeF fs ≤ fuel → uiSectionFreeF fs = true →
      mapEntriesE (removeUIPropsF fuel) fs = Except.ok fs
  | JFields.nil, _, _ => rfl
  | JFields.cons k v rest, hs, h => by
      obtain ⟨_, _, hv, hrest⟩ := uiSectionFreeF_cons k v rest h
      have hsv : jsize v ≤ fuel := by simp [jsizeF] at hs; omega
      have hsr : jsizeF rest ≤ fuel := by simp [jsizeF] at hs; omega
      have hrec := mapEntriesE_clean fuel ih rest hsr hrest
      cases v with
      | obj fsv => simp [mapEntriesE, ih (JVal.obj fsv) hsv hv, hrec, except_bind_ok]
      | arr xs => simp [mapEntriesE, ih (JVal.arr xs) hsv hv, hrec, except_bind_ok]
      | null => simp [mapEntriesE, hrec, except_bind_ok]
      | bool b => simp [mapEntriesE, hrec, except_bind_ok]
      | num n => simp [mapEntriesE, hrec, except_bind_ok]
      | str s => simp [mapEntriesE, hrec, except_bind_ok]

theorem mapElemsE_clean (fuel : Nat)
    (ih : ∀ w : JVal, jsize w ≤ fuel → uiSectionFree w = true →
      removeUIPropsF fuel w = Except.ok w) :
    ∀ xs : JList, jsizeL xs ≤ fuel → uiSectionFreeL xs = true →
      mapElemsE (removeUIPropsF fuel) xs = Except.ok xs
  | JList.nil, _, _ => rfl
  | JList.cons x rest, hs, h => by
      obtain ⟨hx, hrest⟩ := uiSectionFreeL_cons x rest h
      have hsx : jsize x ≤ fuel := by simp [jsizeL] at hs; omega
      have hsr : jsizeL rest ≤ fuel := by simp [jsizeL] at hs; omega
      have hrec := mapElemsE_clean fuel ih rest hsr hrest
      cases x with
      | obj fsv => simp [mapElemsE, ih (JVal.obj fsv) hsx hx, hrec, except_bind_ok]
      | arr ys => simp [mapElemsE, ih (JVal.arr ys) hsx hx, hrec, except_bind_ok]
      | null => simp [mapElemsE, hrec, except_bind_ok]
      | bool b => simp [mapElemsE, hrec, except_bind_ok]
      | num n => simp [mapElemsE, hrec, except_bind_ok]
      | str s => simp [mapElemsE, hrec, except_bind_ok]

theorem removeUIPropsF_clean : ∀ (fuel : Nat) (v : JVal), jsize v ≤ fuel →
    uiSectionFree v = true → removeUIPropsF fuel v = Except.ok v := by
  intro fuel
  induction fuel with
  | zero =>
      intro v hv _
      exact absurd (jsize_pos v) (by omega)
  | succ fuel ih =>
      intro v hv hfree
      cases v with
      | null => rfl
      | bool b => rfl
      | num n => rfl
      | str s => rfl
      | arr xs =>
          have h1 : jsizeL xs ≤ fuel := by simp [jsize] at hv; omega
          have h2 : uiSectionFreeL xs = true := by simpa [uiSectionFree] using hfree
          simp [removeUIPropsF, mapElemsE_clean fuel ih xs h1 h2, except_bind_ok]
      | obj fs =>
          have h1 : jsizeF fs ≤ fuel := by simp [jsize] at hv; omega
          have h2 : uiSectionFreeF fs = true := by simpa [uiSectionFree] using hfree
          simp [removeUIPropsF, dropUIKeys_id fs h2, mapEntriesE_clean fuel ih fs h1 h2,
            lookupKey_sections_none fs h2, except_bind_ok]

theorem lookupKey_setKey : ∀ (fs : JFields) (k : String) (v : JVal),
    lookupKey (setKey fs k v) k = some v
  | JFields.nil, k, v => by simp [setKey, lookupKey]
  | JFields.cons k' w rest, k, v => by
      by_cases hk : k' = k
      · simp [setKey, hk, lookupKey]
      · simp [setKey, hk, lookupKey, lookupKey_setKey rest k v]

theorem objSpine_nilObj : ∀ ks : List String, objSpine (JVal.obj JFields.nil) ks = true := by
  intro ks
  cases ks with
  | nil => rfl
  | cons k rest => simp [objSpine, lookupKey]

theorem setNestedAux_spine :
    ∀ (ks : List String) (fs : JFields) (lk : String) (v : JVal),
      objSpine (JVal.obj fs) ks = true →
      ∃ r, setNestedAux (JVal.obj fs) ks lk v = Except.ok (JVal.obj r) ∧
        (ks ++ [lk]).foldl nestStep (some (JVal.obj r)) = some v := by
  intro ks
  induction ks with
  | nil =>
      intro fs lk v _
      refine ⟨setKey fs lk v, rfl, ?_⟩
      simp [List.foldl, nestStep, truthy, getMember, lookupKey_setKey]
  | cons k rest ih =>
      intro fs lk v hspine
      cases hlk : lookupKey fs k with
      | none =>
          obtain ⟨r', h1, h2⟩ := ih JFields.nil lk v (objSpine_nilObj rest)
          refine ⟨setKey fs k (JVal.obj r'), ?_, ?_⟩
          · simp [setNestedAux, getMember, hlk, h1, assignKey, except_bind_ok]
          · simp [List.foldl, nestStep, truthy, getMember, lookupKey_setKey, h2]
      | some w =>
          cases w with
          | obj fs' =>
              have hspine' : objSpine (JVal.obj fs') rest = true := by
                simpa [objSpine, hlk] using hspine
              obtain ⟨r', h1, h2⟩ := ih fs' lk v hspine'
              refine ⟨setKey fs k (JVal.obj r'), ?_, ?_⟩
              · simp [setNestedAux, getMember, hlk, truthy, h1, assignKey, except_bind_ok]
              · simp [List.foldl, nestStep, truthy, getMember, lookupKey_setKey, h2]
          | null => simp [objSpine, hlk] at hspine
          | bool b => simp [objSpine, hlk] at hspine
          | num n => simp [objSpine, hlk] at hspine
          | str s => simp [objSpine, hlk] at hspine
          | arr xs => simp [objSpine, hlk] at hspine

/-! ## Claim theorems -/

/-- C1 (counterexample): a rule with a present-but-empty conditions list does
not return `defaultWhenAbsent` — under logic `and` the result is `true` even
when the default is `false`, because `[]` is a truthy JS array and
`[].every(...)` is `true`. -/
theorem evaluateUIConditions_empty_not_default :
    evaluateUIConditions (some ⟨some [], some "and"⟩) (JVal.obj JFields.nil) false ≠ false := by
  decide

/-- C1 (amended): `evaluateUIConditions` returns `defaultWhenAbsent` when the
rule is absent or its `conditions` property is absent, independent of the
data and of the logic mode; but when the conditions list is present and
empty, the result is `true` under logic `and` (or an absent logic mode) and
`false` under `or`, independent of the data and of `defaultWhenAbsent`. -/
theorem evaluateUIConditions_absent_vs_empty (fd : JVal) (dv : Bool) (lg : Option String) :
    evaluateUIConditions none fd dv = dv
      ∧ evaluateUIConditions (some ⟨none, lg⟩) fd dv = dv
      ∧ evaluateUIConditions (some ⟨some [], some "and"⟩) fd dv = true
      ∧ evaluateUIConditions (some ⟨some [], none⟩) fd dv = true
      ∧ evaluateUIConditions (some ⟨some [], some "or"⟩) fd dv = false :=
  ⟨rfl, rfl, rfl, rfl, rfl⟩

/-- C2: for the one-section schema with id `s` and required field `f`, and
data `{s: {}}`, `validateFormData` reports invalid with the required-property
message re-keyed at the composite path `s.f`; the message ends in
"is required"; no message is keyed at `s`, and the only other entry is the
empty placeholder bucket at `root` created before the required special-case
skipped it. -/
theorem validateFormData_required_remap :
    validateFormData formC2Schema formC2Data
        = Except.ok (false, [("root", []), ("s.f", ["s.f is required"])])
      ∧ lookupErrs [("root", []), ("s.f", ["s.f is required"])] "s.f"
          = some ["s.f is required"]
      ∧ lookupErrs [("root", []), ("s.f", ["s.f is required"])] "s" = none
      ∧ lookupErrs [("root", []), ("s.f", ["s.f is required"])] "root" = some []
      ∧ strEndsWith "s.f is required" "is required" = true :=
  ⟨rfl, rfl, rfl, rfl, rfl⟩

/-- C3: contrary to the claim, the custom-message search of the error-mapping
stage raises for a `pattern` error whose instance path has two segments of
which the first cannot be resolved: after `properties['a']` yields
`undefined`, the next iteration dereferences `.properties` on `undefined`
(a `TypeError`), instead of falling back to "Invalid format". -/
theorem formatErrors_pattern_walk_raises :
    formatErrors (JVal.obj (jfields [("properties", JVal.obj JFields.nil)]))
        [⟨"/a/b", "pattern", some "must match pattern", none, none, none, none, none⟩]
      = Except.error "TypeError: cannot read properties of undefined" := rfl

/-- C4 (counterexample): a mapping entry keyed by the source value `0` exists,
yet `getDynamicEnumOptions` returns `null`, because the truthiness guard
`sourceValue && mapping[sourceValue]` skips every falsy source value. -/
theorem getDynamicEnumOptions_falsy_counterexample :
    getDynamicEnumOptions
        ⟨"string", none, none, none, none, none,
          some ⟨"a", [("0", ⟨[JVal.str "x"], none⟩)]⟩⟩
        (JVal.obj (jfields [("a", JVal.num 0)])) = none
      ∧ lookupMapping [("0", ⟨[JVal.str "x"], none⟩)] (jsToString (JVal.num 0))
          = some ⟨[JVal.str "x"], none⟩ :=
  ⟨rfl, rfl⟩

/-- C4 (amended): without a dynamic source `getDynamicEnumOptions` returns
`null`; with one, it returns the mapping entry keyed by the string form of
the source field's current value whenever that value is truthy and the entry
exists, and returns `null` when the source value is falsy, when the mapping
has no entry for it, or when the source path resolves to `undefined` —
falsy source values (such as 0, false, and the empty string) are never looked
up, even when a mapping entry for them exists. -/
theorem getDynamicEnumOptions_characterization (field : FormFieldSchema) (fd : JVal) :
    (field.uiEnumSource = none → getDynamicEnumOptions field fd = none)
      ∧ (∀ src v e, field.uiEnumSource = some src →
          getNestedValue fd src.field = some v → truthy v = true →
          lookupMapping src.mapping (jsToString v) = some e →
          getDynamicEnumOptions field fd = some e)
      ∧ (∀ src v, field.uiEnumSource = some src →
          getNestedValue fd src.field = some v → truthy v = false →
          getDynamicEnumOptions field fd = none)
      ∧ (∀ src v, field.uiEnumSource = some src →
          getNestedValue fd src.field = some v →
          lookupMapping src.mapping (jsToString v) = none →
          getDynamicEnumOptions field fd = none)
      ∧ (∀ src, field.uiEnumSource = some src →
          getNestedValue fd src.field = none →
          getDynamicEnumOptions field fd = none) := by
  refine ⟨?_, ?_, ?_, ?_, ?_⟩
  · intro h
    simp [getDynamicEnumOptions, h]
  · intro src v e h1 h2 h3 h4
    simp [getDynamicEnumOptions, h1, h2, h3, h4]
  · intro src v h1 h2 h3
    simp [getDynamicEnumOptions, h1, h2, h3]
  · intro src v h1 h2 h3
    cases htr : truthy v with
    | false => simp [getDynamicEnumOptions, h1, h2, htr]
    | true => simp [getDynamicEnumOptions, h1, h2, h3, htr]
  · intro src h1 h2
    simp [getDynamicEnumOptions, h1, h2]

/-- C4 (witness): a truthy mapped source value returns its entry. -/
theorem getDynamicEnumOptions_characterization_witness :
    getDynamicEnumOptions
        ⟨"string", none, none, none, none, none,
          some ⟨"a", [("b", ⟨[JVal.str "x"], none⟩)]⟩⟩
        (JVal.obj (jfields [("a", JVal.str "b")])) = some ⟨[JVal.str "x"], none⟩ :=
  (getDynamicEnumOptions_characterization
      ⟨"string", none, none, none, none, none,
        some ⟨"a", [("b", ⟨[JVal.str "x"], none⟩)]⟩⟩
      (JVal.obj (jfields [("a", JVal.str "b")]))).2.1
    ⟨"a", [("b", ⟨[JVal.str "x"], none⟩)]⟩ (JVal.str "b") ⟨[JVal.str "x"], none⟩
    rfl rfl rfl rfl

/-- C5 (counterexample): with a non-empty conditions list whose single
condition is false on the data, an unknown logic mode `xor` returns the
default `true`, while logic `and` returns `false` — an unknown mode does not
behave as `and`. -/
theorem evaluateUIConditions_unknown_logic_counterexample :
    evaluateUIConditions (some ⟨some [⟨"x", "exists", none⟩], some "xor"⟩)
        (JVal.obj JFields.nil) true = true
      ∧ evaluateUIConditions (some ⟨some [⟨"x", "exists", none⟩], some "and"⟩)
        (JVal.obj JFields.nil) true = false :=
  ⟨rfl, rfl⟩

/-- C5 (amended): an absent logic mode behaves exactly as `and` on the same
conditions and data; a logic mode outside `and`/`or` instead returns
`defaultWhenAbsent`, whatever the conditions and data. -/
theorem evaluateUIConditions_logic_modes (conds : List UICondition) (fd : JVal)
    (dv : Bool) (m : String) (hm1 : m ≠ "and") (hm2 : m ≠ "or") :
    evaluateUIConditions (some ⟨some conds, none⟩) fd dv
        = evaluateUIConditions (some ⟨some conds, some "and"⟩) fd dv
      ∧ evaluateUIConditions (some ⟨some conds, some m⟩) fd dv = dv := by
  constructor
  · rfl
  · simp [evaluateUIConditions, hm1, hm2]

/-- C5 (witness): the unknown mode `xor` returns the default. -/
theorem evaluateUIConditions_logic_modes_witness :
    evaluateUIConditions (some ⟨some [], some "xor"⟩) (JVal.obj JFields.nil) true = true :=
  (evaluateUIConditions_logic_modes [] (JVal.obj JFields.nil) true "xor"
    (by decide) (by decide)).2

/-- C6: a field's effective disabled state is exactly
`sectionDisabled OR evaluateUIConditions(field's disablement rule, data, false)`;
in particular a disabled section forces `true` whatever the field's own rule,
and an enabled section leaves exactly the field's own rule with default
`false`. -/
theorem shouldDisableField_cascade (field : FormFieldSchema) (formData : JVal)
    (sectionDisabled : Bool) :
    shouldDisableField field formData sectionDisabled
        = (sectionDisabled || evaluateUIConditions field.uiDisabled formData false)
      ∧ shouldDisableField field formData true = true
      ∧ shouldDisableField field formData false
          = evaluateUIConditions field.uiDisabled formData false :=
  ⟨rfl, rfl, by simp [shouldDisableField]⟩

/-- C7: on any operator outside the fixed eight-operator set the condition
evaluator takes the default branch of its switch and returns `true` (total,
hence never raising in the model). -/
theorem evaluateCondition_unknown_operator (c : UICondition) (fd : JVal)
    (h : c.operator ∉ (["equals", "not_equals", "in", "not_in", "greater_than",
      "less_than", "exists", "not_exists"] : List String)) :
    evaluateCondition c fd = true := by
  simp only [List.mem_cons, List.mem_singleton, not_or] at h
  obtain ⟨h1, h2, h3, h4, h5, h6, h7, h8⟩ := h
  simp [evaluateCondition, h1, h2, h3, h4, h5, h6, h7, h8]

/-- C7 (witness): a made-up operator evaluates to `true`. -/
theorem evaluateCondition_unknown_operator_witness :
    evaluateCondition ⟨"x", "frobnicate", none⟩ (JVal.obj JFields.nil) = true :=
  evaluateCondition_unknown_operator ⟨"x", "frobnicate", none⟩ (JVal.obj JFields.nil)
    (by decide)

/-- C8: on a schema with no `ui:`-namespaced key and no `sections` key at any
nesting depth, `stripUIExtensions` returns its input unchanged (the deep copy
is the identity of the pure JSON model, in which the embedded function can
share no mutable structure with its argument). -/
theorem stripUIExtensions_noop (v : JVal) (h : uiSectionFree v = true) :
    stripUIExtensions v = Except.ok v :=
  removeUIPropsF_clean (jsize v) v (le_refl _) h

/-- C8 (witness): a plain structural schema is returned unchanged. -/
theorem stripUIExtensions_noop_witness :
    stripUIExtensions (JVal.obj (jfields
        [("type", JVal.str "object"),
         ("properties", JVal.obj (jfields
           [("a", JVal.obj (jfields [("type", JVal.str "string")]))]))]))
      = Except.ok (JVal.obj (jfields
        [("type", JVal.str "object"),
         ("properties", JVal.obj (jfields
           [("a", JVal.obj (jfields [("type", JVal.str "string")]))]))])) :=
  stripUIExtensions_noop _ (by decide)

/-- C9 (counterexample): `validateField` can propagate an exception — the
schema normalization runs before the try block, and a field schema whose
`sections` array holds a section without `properties` makes
`Object.entries(section.properties)` raise a `TypeError` that escapes. -/
theorem validateField_normalization_raises :
    validateField
        (some (JVal.obj (jfields [("sections", JVal.arr (jlist [JVal.obj JFields.nil]))])))
        (JVal.str "x") "p"
      = Except.error "TypeError: Object.entries called on null or undefined" := rfl

/-- C9 (amended): `validateField` returns the empty list when the field
schema is absent (or null, or otherwise falsy), and any compile error of the
structural engine inside the try block is caught into the empty list; but the
schema normalization runs before the try block, so an exception it raises
propagates. -/
theorem validateField_failopen (v : JVal) (p : String) (fsv stripped : JVal) (msg : String)
    (h1 : stripUIExtensions fsv = Except.ok stripped)
    (h2 : ajvCompile (fieldWrapperSchema fsv stripped) = Except.error msg) :
    validateField none v p = Except.ok []
      ∧ validateField (some JVal.null) v p = Except.ok []
      ∧ validateField (some fsv) v p = Except.ok [] := by
  refine ⟨rfl, rfl, ?_⟩
  cases htr : truthy fsv with
  | false => simp [validateField, htr]
  | true => simp [validateField, htr, h1, h2]

/-- C9 (witness): a field schema whose `type` keyword is not a string makes
the engine's compile fail, and the failure is caught into the empty list. -/
theorem validateField_failopen_witness :
    validateField (some (JVal.obj (jfields [("type", JVal.num 3)]))) (JVal.str "x") "p"
      = Except.ok [] :=
  (validateField_failopen (JVal.str "x") "p" (JVal.obj (jfields [("type", JVal.num 3)]))
    (JVal.obj (jfields [("type", JVal.num 3)]))
    "schema is invalid: the type keyword must hold a string" rfl rfl).2.2

/-- C10: for a data object, a dot-path whose split is `ks ++ [lk]`, and any
value (values of the JSON model are never `undefined`), if every intermediate
key along the path is absent at its level or bound to a plain object, then
`setNestedValue` succeeds and `getNestedValue` on the updated object returns
exactly the written value. -/
theorem setNested_getNested_roundtrip (p : String) (v : JVal) (fs : JFields)
    (ks : List String) (lk : String)
    (hsplit : jsSplit p '.' = ks ++ [lk])
    (hspine : objSpine (JVal.obj fs) ks = true) :
    ∃ r, setNestedValue (JVal.obj fs) p v = Except.ok r ∧ getNestedValue r p = some v := by
  obtain ⟨r, h1, h2⟩ := setNestedAux_spine ks fs lk v hspine
  refine ⟨JVal.obj r, ?_, ?_⟩
  · simpa [setNestedValue, hsplit] using h1
  · simpa [getNestedValue, hsplit] using h2

/-- C10 (witness): writing 7 at `a.b` over `{a: {z: 1}}` and reading it back. -/
theorem setNested_getNested_roundtrip_witness :
    ∃ r, setNestedValue (JVal.obj (jfields [("a", JVal.obj (jfields [("z", JVal.num 1)]))]))
        "a.b" (JVal.num 7) = Except.ok r
      ∧ getNestedValue r "a.b" = some (JVal.num 7) :=
  setNested_getNested_roundtrip "a.b" (JVal.num 7)
    (jfields [("a", JVal.obj (jfields [("z", JVal.num 1)]))]) ["a"] "b" rfl rfl
